import Mathlib

/-!
Verification of the DigitalOcean inventory script (`digitalocean_inventory.py`).

The script builds, from the provider's droplet listing, two Python dicts:
`self.inventory` (group key → list of addresses) and `self.index`
(address → `[region_id, droplet_id]`), caches them as JSON files, and answers
single-host queries through the index.  Python dicts over mixed `int`/`str`
keys are embedded as association lists over an explicit key type `GKey`;
dict lookup takes the first matching entry and dict assignment replaces in
place, mirroring Python dict semantics for duplicate-free lists.
-/

set_option maxHeartbeats 1000000

namespace DOInv

/-- Keys of the Python dicts built by the script.  Droplet ids are Python
ints; droplet names, region slugs and the fallback region label are strings.
A Python dict distinguishes the int key `1` from the string key `"1"`, so
both shapes are kept apart. -/
inductive GKey where
  | kid (i : Int)
  | kstr (s : String)
  deriving DecidableEq

/-- `str(key)` as applied by `json.dumps` when coercing a non-string dict key. -/
def keyStr : GKey → String
  | .kid i => toString i
  | .kstr s => s

/-- Python 2 cross-type comparison as used by `items.sort()` inside
`json.dumps(..., sort_keys=True)`: any int sorts before any str. -/
def keyLe : GKey → GKey → Bool
  | .kid i, .kid j => decide (i ≤ j)
  | .kid _, .kstr _ => true
  | .kstr _, .kid _ => false
  | .kstr a, .kstr b => decide (a ≤ b)

/-- Dict lookup: first entry whose key matches (`d[k]` / `k in d`). -/
def dget {α β : Type} [DecidableEq α] : List (α × β) → α → Option β
  | [], _ => none
  | (k', v) :: rest, k => if k = k' then some v else dget rest k

/-- Dict assignment `d[k] = v`: replace the value in place when the key is
present, otherwise add the binding at the end. -/
def dset {α β : Type} [DecidableEq α] : List (α × β) → α → β → List (α × β)
  | [], k, v => [(k, v)]
  | (k', v') :: rest, k, v =>
      if k = k' then (k, v) :: rest else (k', v') :: dset rest k v

/-- `DigitalOceanInventory.push`: append `e` to `d[k]`, creating the
singleton list when the key is absent. -/
def push {α γ : Type} [DecidableEq α] (d : List (α × List γ)) (k : α) (e : γ) :
    List (α × List γ) :=
  match dget d k with
  | some xs => dset d k (xs ++ [e])
  | none => d ++ [(k, [e])]

/-- A droplet record as consumed by `add_droplet`.  `ip_address` is `none`
when the JSON field is `null` (Python `None`); an empty string is also
falsy in the `if not dest` test. -/
structure Droplet where
  id : Int
  name : String
  region_id : Int
  ip_address : Option String
  deriving DecidableEq

/-- The address a droplet is reachable at, when the `if not dest` guard in
`add_droplet` passes: `none` for an absent (`null`) or empty address. -/
def Droplet.dest? (d : Droplet) : Option String :=
  match d.ip_address with
  | none => none
  | some a => if a = "" then none else some a

/-- One record of the `/regions` response: `slug` is `none` for JSON `null`. -/
structure RegionRec where
  id : Int
  slug : Option String
  deriving DecidableEq

/-- `region['slug'] or region['id']`: the slug when it is truthy, else the
numeric region id itself becomes the region's group key. -/
def regionName (r : RegionRec) : GKey :=
  match r.slug with
  | none => GKey.kid r.id
  | some s => if s = "" then GKey.kid r.id else GKey.kstr s

/-- `regions[region['id']] = region['slug'] or region['id']` over the
`/regions` response, building the region map dict. -/
def buildRegions (rs : List RegionRec) : List (Int × GKey) :=
  rs.foldl (fun acc r => dset acc r.id (regionName r)) []

/-- The two accumulating dicts of `DigitalOceanInventory`. -/
structure DOState where
  inventory : List (GKey × List String)
  index : List (String × (Int × Int))
  deriving DecidableEq

/-- `DigitalOceanInventory.add_droplet`: skip unaddressable droplets, else
record `index[dest] = [region_id, id]`, assign `inventory[id] = [dest]`, and
push `dest` onto the region group and the name group. -/
def add_droplet (st : DOState) (d : Droplet) (region_name : GKey) : DOState :=
  match d.ip_address with
  | none => st
  | some dest =>
    if dest = "" then st
    else
      let index := dset st.index dest (d.region_id, d.id)
      let inv1 := dset st.inventory (GKey.kid d.id) [dest]
      let inv2 := push inv1 region_name dest
      let inv3 := push inv2 (GKey.kstr d.name) dest
      ⟨inv3, index⟩

/-- `regions.get(droplet['region_id'], 'Unknown Region')`. -/
def resolveRegion (regions : List (Int × GKey)) (rid : Int) : GKey :=
  (dget regions rid).getD (GKey.kstr "Unknown Region")

/-- One iteration of the droplet loop in `do_api_calls_update_cache`. -/
def stepDroplet (regions : List (Int × GKey)) (st : DOState) (d : Droplet) : DOState :=
  add_droplet st d (resolveRegion regions d.region_id)

/-- The pure content of `do_api_calls_update_cache`: build the region map
from the `/regions` response and fold the droplet loop over the current
state (the method adds into the existing dicts; it does not clear them). -/
def do_api_calls_update_cache (st : DOState) (regionsResp : List RegionRec)
    (droplets : List Droplet) : DOState :=
  droplets.foldl (stepDroplet (buildRegions regionsResp)) st

/-- Building the inventory from scratch, as in a fresh run (`__init__` starts
with empty dicts). -/
def buildInventory (regionsResp : List RegionRec) (droplets : List Droplet) : DOState :=
  do_api_calls_update_cache ⟨[], []⟩ regionsResp droplets

/-- The droplet whose `add_droplet` call wrote `index[a]` last: the last
droplet of the list whose (non-empty) address is `a`. -/
def lastMatch (a : String) : List Droplet → Option Droplet
  | [] => none
  | d :: ds =>
    match lastMatch a ds with
    | some d' => some d'
    | none => if d.dest? = some a then some d else none

/-- Address `x` occurs in some group-membership list of the inventory dict. -/
def addrIn (inv : List (GKey × List String)) (x : String) : Prop :=
  ∃ p ∈ inv, x ∈ p.2

/-- The addresses one droplet pushes onto the string-keyed group `s`: its
address once if its resolved region key is the string `s` (the region push
comes first in `add_droplet`) and once more if its name is `s`; nothing when
the droplet is unaddressable. -/
def contrib (regions : List (Int × GKey)) (d : Droplet) (s : String) : List String :=
  match d.dest? with
  | none => []
  | some a =>
      (if resolveRegion regions d.region_id = GKey.kstr s then [a] else []) ++
        (if d.name = s then [a] else [])

/-- All addresses pushed onto the string-keyed group `s` by a droplet list,
in input order. -/
def contribs (regions : List (Int × GKey)) (ds : List Droplet) (s : String) : List String :=
  match ds with
  | [] => []
  | d :: rest => contrib regions d s ++ contribs regions rest s

/-- Leaf values occurring in the cached structures: JSON strings and ints. -/
inductive Atom where
  | str (s : String)
  | int (i : Int)
  deriving DecidableEq

/-- The shape shared by both cache payloads as Python values: a dict whose
values are lists of atoms (inventory groups: lists of address strings; index
entries: the two-element `[region_id, droplet_id]` lists). -/
abbrev PyDict := List (GKey × List Atom)

/-- Comparison of dict items by their original key, as `items.sort()` does
inside `json.dumps(..., sort_keys=True)`. -/
def pairLe (p q : GKey × List Atom) : Prop := keyLe p.1 q.1 = true

instance : DecidableRel pairLe :=
  fun p q => inferInstanceAs (Decidable (keyLe p.1 q.1 = true))

/-- The sorted item list `json.dumps(..., sort_keys=True)` iterates over. -/
def sortPairs (d : PyDict) : PyDict := List.insertionSort pairLe d

/-- `json.dumps` at the level of the JSON document tree (modelled from the
external `json` library): items are sorted by their original key and every
key is coerced to its string form in the output object. -/
def dumpObj (d : PyDict) : List (String × List Atom) :=
  (sortPairs d).map (fun p => (keyStr p.1, p.2))

/-- `json.loads` on a document produced by `dumpObj` (modelled from the
external `json` library at the document-tree level: parsing the printed text
recovers exactly the document tree, whose object keys are strings). -/
def json_loads (j : List (String × List Atom)) : PyDict :=
  j.map (fun p => (GKey.kstr p.1, p.2))

/-- JSON string escaping for the characters that need it here. -/
def escChar (c : Char) : String :=
  if c = '"' then "\\\"" else if c = '\\' then "\\\\" else String.singleton c

/-- Escape a string for inclusion between JSON quotes. -/
def escape (s : String) : String := String.join (s.toList.map escChar)

/-- Textual form of one JSON leaf. -/
def renderAtom : Atom → String
  | .str s => "\"" ++ escape s ++ "\""
  | .int i => toString i

/-- Textual form of a JSON array of leaves. -/
def renderList (xs : List Atom) : String :=
  "[" ++ String.intercalate ", " (xs.map renderAtom) ++ "]"

/-- Textual form of a JSON object whose values are arrays of leaves. -/
def renderObj (j : List (String × List Atom)) : String :=
  "\x7b" ++
    String.intercalate ", "
      (j.map (fun p => "\"" ++ escape p.1 ++ "\": " ++ renderList p.2)) ++
    "\x7d"

/-- `DigitalOceanInventory.json_format_dict` on a dict value: serialize it to
cache text (keys sorted and coerced to strings, then printed). -/
def json_format_dict (d : PyDict) : String := renderObj (dumpObj d)

/-- The inventory dict as the Python value handed to `json.dumps`. -/
def invToPy (inv : List (GKey × List String)) : PyDict :=
  inv.map (fun p => (p.1, p.2.map Atom.str))

/-- The index dict as the Python value handed to `json.dumps`: the entry for
an address is the list `[region_id, droplet_id]`. -/
def indexToPy (idx : List (String × (Int × Int))) : PyDict :=
  idx.map (fun p => (GKey.kstr p.1, [Atom.int p.2.1, Atom.int p.2.2]))

/-- The association list represents a Python dict: no duplicate keys. -/
def nodupKeys (d : PyDict) : Prop := (d.map Prod.fst).Nodup

/-- The filesystem facts `is_cache_valid` consults.  Timestamps are embedded
as integers; only their ordering and addition matter to the check. -/
structure FSState where
  cacheFileExists : Bool
  cacheMtime : Int
  maxAge : Int
  nowT : Int
  indexFileExists : Bool
  deriving DecidableEq

/-- The value `get_host_info` returns to its caller: either a plain string
(the already-serialized empty dict of the not-found branch) or the droplet
record dict fetched from the API — two different Python shapes. -/
inductive HostRet where
  | text (s : String)
  | record (d : PyDict)
  deriving DecidableEq

/-- Successful listing responses plus the by-id endpoint; the latter may
still fail (`__do_api` raises on a non-"OK" status, carried as
`Except.error`). -/
structure ApiEnv where
  regionsResp : List RegionRec
  dropletsResp : List Droplet
  dropletById : Int → Except String PyDict

/-- `load_index_from_cache`, performed only when the in-memory index is
empty; the inventory dict is left as it is. -/
def loadedState (st : DOState) (cachedIndex : List (String × (Int × Int))) : DOState :=
  if st.index.isEmpty then { st with index := cachedIndex } else st

/-- `DigitalOceanInventory.get_host_info`: load the index from cache when
empty; when the host is missing, refresh by running the API update over the
current dicts and re-check; return the serialized empty dict when the host
is still absent, otherwise fetch the droplet record by the indexed id. -/
def get_host_info (st : DOState) (cachedIndex : List (String × (Int × Int)))
    (env : ApiEnv) (host : String) : Except String HostRet :=
  let st1 := loadedState st cachedIndex
  let st2 :=
    if (dget st1.index host).isSome then st1
    else do_api_calls_update_cache st1 env.regionsResp env.dropletsResp
  match dget st2.index host with
  | none => Except.ok (HostRet.text (json_format_dict []))
  | some p => (env.dropletById p.2).map HostRet.record

/-- `json_format_dict(self.get_host_info(), True)`: the single-host output
path serializes whatever `get_host_info` returned — the record dict in the
found branch, the already-serialized string in the not-found branch (which
is printed as a JSON string literal, i.e. serialized a second time). -/
def hostOutput : HostRet → String
  | .text s => renderAtom (Atom.str s)
  | .record d => json_format_dict d

/-- `DigitalOceanInventory.is_cache_valid`, with the same nesting: the file
must exist, `mod_time + cache_max_age` must exceed the current time strictly,
and the index file must also exist. -/
def is_cache_valid (fs : FSState) : Bool :=
  if fs.cacheFileExists then
    if fs.cacheMtime + fs.maxAge > fs.nowT then
      if fs.indexFileExists then true else false
    else false
  else false

end DOInv

namespace DOInv

theorem dget_dset {α β : Type} [DecidableEq α] (d : List (α × β)) (k k' : α) (v : β) :
    dget (dset d k v) k' = if k' = k then some v else dget d k' := by
  induction d with
  | nil => by_cases h : k' = k <;> simp [dget, dset, h]
  | cons p rest ih =>
    obtain ⟨k₀, v₀⟩ := p
    by_cases h1 : k = k₀
    · subst h1
      by_cases h2 : k' = k <;> simp [dget, dset, h2]
    · by_cases h2 : k' = k₀
      · subst h2
        simp [dget, dset, h1, Ne.symm h1]
      · simp [dget, dset, h1, h2, ih]

theorem dget_append_none {α β : Type} [DecidableEq α] {d : List (α × β)} {k : α}
    (l : List (α × β)) (h : dget d k = none) : dget (d ++ l) k = dget l k := by
  induction d with
  | nil => simp
  | cons p rest ih =>
    obtain ⟨k₀, v₀⟩ := p
    by_cases h1 : k = k₀
    · simp [dget, h1] at h
    · simp [dget, h1] at h ⊢
      exact ih h

theorem dget_append_some {α β : Type} [DecidableEq α] {d : List (α × β)} {k : α} {v : β}
    (l : List (α × β)) (h : dget d k = some v) : dget (d ++ l) k = some v := by
  induction d with
  | nil => simp [dget] at h
  | cons p rest ih =>
    obtain ⟨k₀, v₀⟩ := p
    by_cases h1 : k = k₀
    · simp [dget, h1] at h ⊢
      exact h
    · simp [dget, h1] at h ⊢
      exact ih h

theorem dget_some_mem {α β : Type} [DecidableEq α] {d : List (α × β)} {k : α} {v : β}
    (h : dget d k = some v) : (k, v) ∈ d := by
  induction d with
  | nil => simp [dget] at h
  | cons p rest ih =>
    obtain ⟨k₀, v₀⟩ := p
    by_cases h1 : k = k₀
    · subst h1
      simp [dget] at h
      simp [h]
    · simp [dget, h1] at h
      exact List.mem_cons_of_mem _ (ih h)

theorem dget_push_self {α γ : Type} [DecidableEq α] (d : List (α × List γ)) (k : α) (e : γ) :
    dget (push d k e) k = some ((dget d k).getD [] ++ [e]) := by
  unfold push
  cases h : dget d k with
  | some xs => simp [dget_dset]
  | none =>
    rw [dget_append_none _ h]
    simp [dget]

theorem dget_push_ne {α γ : Type} [DecidableEq α] (d : List (α × List γ)) (k k' : α) (e : γ)
    (hne : k' ≠ k) : dget (push d k e) k' = dget d k' := by
  unfold push
  cases h : dget d k with
  | some xs => simp [dget_dset, hne]
  | none =>
    cases h2 : dget d k' with
    | some v => exact dget_append_some _ h2
    | none =>
      rw [dget_append_none _ h2]
      simp [dget, hne]

theorem dget_index_stepDroplet (regions : List (Int × GKey)) (st : DOState) (d : Droplet)
    (a : String) :
    dget (stepDroplet regions st d).index a =
      if d.dest? = some a then some (d.region_id, d.id) else dget st.index a := by
  cases h : d.ip_address with
  | none => simp [stepDroplet, add_droplet, Droplet.dest?, h]
  | some dest =>
    by_cases hd : dest = ""
    · simp [stepDroplet, add_droplet, Droplet.dest?, h, hd]
    · simp only [stepDroplet, add_droplet, Droplet.dest?, h, hd, if_neg, ite_false]
      rw [dget_dset]
      by_cases ha : a = dest
      · subst ha
        simp
      · simp [ha, Ne.symm ha]

theorem dget_index_foldl (regions : List (Int × GKey)) (a : String) :
    ∀ (ds : List Droplet) (st : DOState),
      dget (ds.foldl (stepDroplet regions) st).index a =
        match lastMatch a ds with
        | some d => some (d.region_id, d.id)
        | none => dget st.index a := by
  intro ds
  induction ds with
  | nil => intro st; simp [lastMatch]
  | cons d ds ih =>
    intro st
    rw [List.foldl_cons, ih]
    cases h : lastMatch a ds with
    | some d' => simp [lastMatch, h]
    | none =>
      simp only [lastMatch, h]
      rw [dget_index_stepDroplet]
      by_cases hm : d.dest? = some a <;> simp [hm]

theorem lastMatch_mem {a : String} :
    ∀ {ds : List Droplet} {d : Droplet}, lastMatch a ds = some d →
      d ∈ ds ∧ d.dest? = some a := by
  intro ds
  induction ds with
  | nil => intro d h; simp [lastMatch] at h
  | cons d₀ ds ih =>
    intro d h
    simp only [lastMatch] at h
    cases h0 : lastMatch a ds with
    | some d' =>
      rw [h0] at h
      obtain ⟨hm, hd⟩ := ih h0
      cases h
      exact ⟨List.mem_cons_of_mem _ hm, hd⟩
    | none =>
      rw [h0] at h
      by_cases hm : d₀.dest? = some a
      · rw [if_pos hm] at h
        cases h
        exact ⟨List.mem_cons_self _ _, hm⟩
      · rw [if_neg hm] at h
        cases h

theorem dest?_eq_some {d : Droplet} {a : String} (h : d.dest? = some a) :
    d.ip_address = some a ∧ a ≠ "" := by
  cases hip : d.ip_address with
  | none => simp [Droplet.dest?, hip] at h
  | some s =>
    by_cases hs : s = ""
    · simp [Droplet.dest?, hip, hs] at h
    · simp [Droplet.dest?, hip, hs] at h
      subst h
      exact ⟨rfl, hs⟩

theorem addrIn_dset {d : List (GKey × List String)} {k : GKey} {v : List String} {x : String}
    (h : addrIn (dset d k v) x) : addrIn d x ∨ x ∈ v := by
  induction d with
  | nil =>
    obtain ⟨p, hp, hx⟩ := h
    simp [dset] at hp
    subst hp
    exact Or.inr hx
  | cons q rest ih =>
    obtain ⟨k₀, v₀⟩ := q
    by_cases h1 : k = k₀
    · subst h1
      obtain ⟨p, hp, hx⟩ := h
      simp only [dset, if_pos rfl] at hp
      rcases List.mem_cons.1 hp with h2 | h2
      · subst h2; exact Or.inr hx
      · exact Or.inl ⟨p, List.mem_cons_of_mem _ h2, hx⟩
    · obtain ⟨p, hp, hx⟩ := h
      simp only [dset, if_neg h1] at hp
      rcases List.mem_cons.1 hp with h2 | h2
      · subst h2; exact Or.inl ⟨_, List.mem_cons_self _ _, hx⟩
      · rcases ih ⟨p, h2, hx⟩ with h3 | h3
        · obtain ⟨p', hp', hx'⟩ := h3
          exact Or.inl ⟨p', List.mem_cons_of_mem _ hp', hx'⟩
        · exact Or.inr h3

theorem addrIn_push {d : List (GKey × List String)} {k : GKey} {e : String} {x : String}
    (h : addrIn (push d k e) x) : addrIn d x ∨ x = e := by
  unfold push at h
  cases h0 : dget d k with
  | some xs =>
    rw [h0] at h
    rcases addrIn_dset h with h1 | h1
    · exact Or.inl h1
    · rcases List.mem_append.1 h1 with h2 | h2
      · exact Or.inl ⟨(k, xs), dget_some_mem h0, h2⟩
      · simp at h2
        exact Or.inr h2
  | none =>
    rw [h0] at h
    obtain ⟨p, hp, hx⟩ := h
    rcases List.mem_append.1 hp with h2 | h2
    · exact Or.inl ⟨p, h2, hx⟩
    · simp at h2
      subst h2
      simp at hx
      exact Or.inr hx

theorem addrIn_stepDroplet {regions : List (Int × GKey)} {st : DOState} {d : Droplet}
    {x : String} (h : addrIn (stepDroplet regions st d).inventory x) :
    addrIn st.inventory x ∨ d.dest? = some x := by
  cases hip : d.ip_address with
  | none =>
    simp [stepDroplet, add_droplet, hip] at h
    exact Or.inl h
  | some dest =>
    by_cases hd : dest = ""
    · simp [stepDroplet, add_droplet, hip, hd] at h
      exact Or.inl h
    · simp only [stepDroplet, add_droplet, hip, hd, ite_false] at h
      rcases addrIn_push h with h1 | h1
      · rcases addrIn_push h1 with h2 | h2
        · rcases addrIn_dset h2 with h3 | h3
          · exact Or.inl h3
          · simp at h3
            subst h3
            exact Or.inr (by simp [Droplet.dest?, hip, hd])
        · subst h2
          exact Or.inr (by simp [Droplet.dest?, hip, hd])
      · subst h1
        exact Or.inr (by simp [Droplet.dest?, hip, hd])

theorem addrIn_foldl {regions : List (Int × GKey)} {x : String} :
    ∀ {ds : List Droplet} {st : DOState},
      addrIn ((ds.foldl (stepDroplet regions) st).inventory) x →
      addrIn st.inventory x ∨ ∃ d ∈ ds, d.dest? = some x := by
  intro ds
  induction ds with
  | nil => intro st h; exact Or.inl h
  | cons d ds ih =>
    intro st h
    rw [List.foldl_cons] at h
    rcases ih h with h1 | h1
    · rcases addrIn_stepDroplet h1 with h2 | h2
      · exact Or.inl h2
      · exact Or.inr ⟨d, List.mem_cons_self _ _, h2⟩
    · obtain ⟨d', hd', hm⟩ := h1
      exact Or.inr ⟨d', List.mem_cons_of_mem _ hd', hm⟩

theorem dget_buildInventory_index (rs : List RegionRec) (ds : List Droplet) (a : String) :
    dget (buildInventory rs ds).index a =
      (lastMatch a ds).map (fun d => (d.region_id, d.id)) := by
  unfold buildInventory do_api_calls_update_cache
  rw [dget_index_foldl]
  cases h : lastMatch a ds <;> simp [dget]

/-- C7: the index maps each address to the `(region_id, droplet_id)` pair of
the last droplet in input order carrying that non-empty address
(last-write-wins; `none` when no droplet carries it). -/
theorem claim_C7_index_last_write_wins (rs : List RegionRec) (ds : List Droplet) (a : String) :
    dget (buildInventory rs ds).index a =
      (lastMatch a ds).map (fun d => (d.region_id, d.id)) :=
  dget_buildInventory_index rs ds a

/-- C1: a droplet whose address is absent (`null`) or empty is skipped
entirely by `add_droplet`; consequently every index entry and every address
occurring in any inventory group comes from a droplet with a non-empty
address. -/
theorem claim_C1_unaddressable_excluded :
    (∀ (st : DOState) (d : Droplet) (rn : GKey),
        d.ip_address = none ∨ d.ip_address = some "" → add_droplet st d rn = st) ∧
    (∀ (rs : List RegionRec) (ds : List Droplet) (a : String) (p : Int × Int),
        dget (buildInventory rs ds).index a = some p →
        ∃ d ∈ ds, d.ip_address = some a ∧ a ≠ "") ∧
    (∀ (rs : List RegionRec) (ds : List Droplet) (x : String),
        addrIn (buildInventory rs ds).inventory x →
        ∃ d ∈ ds, d.ip_address = some x ∧ x ≠ "") := by
  refine ⟨?_, ?_, ?_⟩
  · intro st d rn h
    rcases h with h | h <;> simp [add_droplet, h]
  · intro rs ds a p h
    rw [dget_buildInventory_index] at h
    cases h0 : lastMatch a ds with
    | none => rw [h0] at h; cases h
    | some d =>
      obtain ⟨hm, hd⟩ := lastMatch_mem h0
      obtain ⟨hip, hne⟩ := dest?_eq_some hd
      exact ⟨d, hm, hip, hne⟩
  · intro rs ds x h
    unfold buildInventory do_api_calls_update_cache at h
    rcases addrIn_foldl h with h1 | h1
    · obtain ⟨p, hp, -⟩ := h1
      simp at hp
    · obtain ⟨d, hm, hd⟩ := h1
      obtain ⟨hip, hne⟩ := dest?_eq_some hd
      exact ⟨d, hm, hip, hne⟩

/-- Witness for C1: a concrete unaddressable droplet leaves the state
untouched, and a concrete index entry traces back to an addressable droplet. -/
theorem claim_C1_unaddressable_excluded_witness :
    add_droplet ⟨[], []⟩ ⟨2, "web2", 5, some ""⟩ (GKey.kstr "nyc1") = ⟨[], []⟩ ∧
    (∃ d ∈ [Droplet.mk 1 "web1" 5 (some "1.2.3.4")],
        d.ip_address = some "1.2.3.4" ∧ "1.2.3.4" ≠ "") := by
  constructor
  · exact claim_C1_unaddressable_excluded.1 ⟨[], []⟩ ⟨2, "web2", 5, some ""⟩
      (GKey.kstr "nyc1") (Or.inr rfl)
  · exact claim_C1_unaddressable_excluded.2.1 [⟨5, some "nyc1"⟩]
      [⟨1, "web1", 5, some "1.2.3.4"⟩] "1.2.3.4" (5, 1) (by decide)

theorem dget_push {α γ : Type} [DecidableEq α] (d : List (α × List γ)) (k k' : α) (e : γ) :
    dget (push d k e) k' =
      if k = k' then some ((dget d k).getD [] ++ [e]) else dget d k' := by
  by_cases h : k = k'
  · subst h
    simp [dget_push_self]
  · simp [h, dget_push_ne _ _ _ _ (Ne.symm h)]

theorem dget_inv_stepDroplet_kstr (regions : List (Int × GKey)) (st : DOState) (d : Droplet)
    (s : String) :
    dget (stepDroplet regions st d).inventory (GKey.kstr s) =
      match dget st.inventory (GKey.kstr s) with
      | some xs => some (xs ++ contrib regions d s)
      | none =>
          if contrib regions d s = [] then none else some (contrib regions d s) := by
  cases hip : d.ip_address with
  | none =>
    simp only [stepDroplet, add_droplet, hip]
    have : contrib regions d s = [] := by simp [contrib, Droplet.dest?, hip]
    rw [this]
    cases hold : dget st.inventory (GKey.kstr s) <;> simp
  | some a =>
    by_cases ha : a = ""
    · simp only [stepDroplet, add_droplet, hip, ha, ite_true]
      have : contrib regions d s = [] := by simp [contrib, Droplet.dest?, hip, ha]
      rw [this]
      cases hold : dget st.inventory (GKey.kstr s) <;> simp
    · have hdest : d.dest? = some a := by simp [Droplet.dest?, hip, ha]
      simp only [stepDroplet, add_droplet, hip, ha, ite_false]
      have h1 : dget (dset st.inventory (GKey.kid d.id) [a]) (GKey.kstr s) =
          dget st.inventory (GKey.kstr s) := by
        rw [dget_dset]
        simp
      by_cases h3 : d.name = s
      · rw [h3, dget_push_self]
        by_cases h2 : resolveRegion regions d.region_id = GKey.kstr s
        · rw [h2, dget_push_self, h1]
          cases hold : dget st.inventory (GKey.kstr s) <;> simp [contrib, hdest, h2, h3]
        · rw [dget_push_ne _ _ _ _ (Ne.symm h2), h1]
          cases hold : dget st.inventory (GKey.kstr s) <;> simp [contrib, hdest, h2, h3]
      · have hne3 : GKey.kstr s ≠ GKey.kstr d.name := by
          intro h
          exact h3 (GKey.kstr.inj h).symm
        rw [dget_push_ne _ _ _ _ hne3]
        by_cases h2 : resolveRegion regions d.region_id = GKey.kstr s
        · rw [h2, dget_push_self, h1]
          cases hold : dget st.inventory (GKey.kstr s) <;> simp [contrib, hdest, h2, h3]
        · rw [dget_push_ne _ _ _ _ (Ne.symm h2), h1]
          cases hold : dget st.inventory (GKey.kstr s) <;> simp [contrib, hdest, h2, h3]

theorem dget_inv_foldl (regions : List (Int × GKey)) (s : String) :
    ∀ (ds : List Droplet) (st : DOState),
      dget ((ds.foldl (stepDroplet regions) st).inventory) (GKey.kstr s) =
        match dget st.inventory (GKey.kstr s) with
        | some xs => some (xs ++ contribs regions ds s)
        | none =>
            if contribs regions ds s = [] then none
            else some (contribs regions ds s) := by
  intro ds
  induction ds with
  | nil =>
    intro st
    cases hold : dget st.inventory (GKey.kstr s) <;> simp [contribs, hold]
  | cons d rest ih =>
    intro st
    rw [List.foldl_cons, ih, dget_inv_stepDroplet_kstr]
    cases hold : dget st.inventory (GKey.kstr s) with
    | some xs => simp [contribs]
    | none =>
      by_cases hc : contrib regions d s = []
      · simp [contribs, hc]
      · simp [contribs, hc]

/-- C8: each string-keyed group of the built inventory holds exactly the
addresses contributed to it (one push per matching region key and one per
matching name), concatenated in droplet input order — no re-sorting. -/
theorem claim_C8_group_order_preserved (rs : List RegionRec) (ds : List Droplet) (s : String) :
    dget (buildInventory rs ds).inventory (GKey.kstr s) =
      if contribs (buildRegions rs) ds s = [] then none
      else some (contribs (buildRegions rs) ds s) := by
  unfold buildInventory do_api_calls_update_cache
  rw [dget_inv_foldl]
  simp [dget]

/-- C4: an addressable droplet whose region id has no entry in the region
map resolves to the sentinel label "Unknown Region", and the group under
that key receives the droplet's address. -/
theorem claim_C4_unknown_region (regions : List (Int × GKey)) (st : DOState) (d : Droplet)
    (a : String) (hreg : dget regions d.region_id = none)
    (hip : d.ip_address = some a) (hne : a ≠ "") :
    resolveRegion regions d.region_id = GKey.kstr "Unknown Region" ∧
    a ∈ (dget (stepDroplet regions st d).inventory (GKey.kstr "Unknown Region")).getD [] := by
  have hres : resolveRegion regions d.region_id = GKey.kstr "Unknown Region" := by
    simp [resolveRegion, hreg]
  refine ⟨hres, ?_⟩
  have hdest : d.dest? = some a := by simp [Droplet.dest?, hip, hne]
  rw [dget_inv_stepDroplet_kstr]
  have hc : a ∈ contrib regions d "Unknown Region" := by
    simp [contrib, hdest, hres]
  cases hold : dget st.inventory (GKey.kstr "Unknown Region") with
  | some xs => simp [hc]
  | none =>
    have hnn : contrib regions d "Unknown Region" ≠ [] := by
      intro h
      rw [h] at hc
      cases hc
    simp [hnn, hc]

/-- Witness for C4 at a concrete droplet with an unmapped region id. -/
theorem claim_C4_unknown_region_witness :
    resolveRegion [] (Droplet.mk 1 "web1" 9 (some "1.2.3.4")).region_id =
      GKey.kstr "Unknown Region" ∧
    "1.2.3.4" ∈ (dget (stepDroplet [] ⟨[], []⟩ ⟨1, "web1", 9, some "1.2.3.4"⟩).inventory
        (GKey.kstr "Unknown Region")).getD [] :=
  claim_C4_unknown_region [] ⟨[], []⟩ ⟨1, "web1", 9, some "1.2.3.4"⟩ "1.2.3.4"
    (by decide) (by decide) (by decide)

theorem dget_buildRegions_aux (rid : Int) (v : GKey) :
    ∀ (rs : List RegionRec) (acc : List (Int × GKey)),
      dget (rs.foldl (fun acc r => dset acc r.id (regionName r)) acc) rid = some v →
      (∃ r ∈ rs, v = regionName r) ∨ dget acc rid = some v := by
  intro rs
  induction rs with
  | nil => intro acc h; exact Or.inr h
  | cons r rest ih =>
    intro acc h
    rw [List.foldl_cons] at h
    rcases ih _ h with h1 | h1
    · obtain ⟨r', hr', hv⟩ := h1
      exact Or.inl ⟨r', List.mem_cons_of_mem _ hr', hv⟩
    · rw [dget_dset] at h1
      by_cases h2 : rid = r.id
      · rw [if_pos h2] at h1
        cases h1
        exact Or.inl ⟨r, List.mem_cons_self _ _, rfl⟩
      · rw [if_neg h2] at h1
        exact Or.inr h1

theorem regionName_good {r : RegionRec} (h1 : r.slug ≠ none) (h2 : r.slug ≠ some "") :
    ∃ s, regionName r = GKey.kstr s := by
  cases hs : r.slug with
  | none => exact absurd hs h1
  | some s =>
    by_cases he : s = ""
    · subst he
      exact absurd hs h2
    · exact ⟨s, by simp [regionName, hs, he]⟩

theorem resolveRegion_good (rs : List RegionRec)
    (hgood : ∀ r ∈ rs, r.slug ≠ none ∧ r.slug ≠ some "") (rid : Int) :
    ∃ s, resolveRegion (buildRegions rs) rid = GKey.kstr s := by
  cases h : dget (buildRegions rs) rid with
  | none => exact ⟨"Unknown Region", by simp [resolveRegion, h]⟩
  | some v =>
    rcases dget_buildRegions_aux rid v rs [] h with h1 | h1
    · obtain ⟨r, hr, hv⟩ := h1
      obtain ⟨s, hs⟩ := regionName_good (hgood r hr).1 (hgood r hr).2
      exact ⟨s, by simp [resolveRegion, h, hv, hs]⟩
    · simp [dget] at h1

theorem dget_inv_stepDroplet_kid_ne (regions : List (Int × GKey)) (st : DOState)
    (d : Droplet) (i : Int) (hid : d.id ≠ i)
    (hrk : ∃ s, resolveRegion regions d.region_id = GKey.kstr s) :
    dget (stepDroplet regions st d).inventory (GKey.kid i) =
      dget st.inventory (GKey.kid i) := by
  cases hip : d.ip_address with
  | none => simp [stepDroplet, add_droplet, hip]
  | some a =>
    by_cases ha : a = ""
    · simp [stepDroplet, add_droplet, hip, ha]
    · obtain ⟨s, hs⟩ := hrk
      simp only [stepDroplet, add_droplet, hip, ha, ite_false]
      rw [dget_push_ne _ _ _ _ (by intro h; cases h), hs,
        dget_push_ne _ _ _ _ (by intro h; cases h), dget_dset]
      rw [if_neg (by intro h; exact hid (GKey.kid.inj h).symm)]

theorem dget_inv_stepDroplet_kid_self (regions : List (Int × GKey)) (st : DOState)
    (d : Droplet) (a : String) (hip : d.ip_address = some a) (ha : a ≠ "")
    (hrk : ∃ s, resolveRegion regions d.region_id = GKey.kstr s) :
    dget (stepDroplet regions st d).inventory (GKey.kid d.id) = some [a] := by
  obtain ⟨s, hs⟩ := hrk
  simp only [stepDroplet, add_droplet, hip, ha, ite_false]
  rw [dget_push_ne _ _ _ _ (by intro h; cases h), hs,
    dget_push_ne _ _ _ _ (by intro h; cases h), dget_dset, if_pos rfl]

theorem dget_inv_foldl_kid_ne (regions : List (Int × GKey)) (i : Int)
    (hres : ∀ rid, ∃ s, resolveRegion regions rid = GKey.kstr s) :
    ∀ (ds : List Droplet) (st : DOState), (∀ d ∈ ds, d.id ≠ i) →
      dget ((ds.foldl (stepDroplet regions) st).inventory) (GKey.kid i) =
        dget st.inventory (GKey.kid i) := by
  intro ds
  induction ds with
  | nil => intro st _; rfl
  | cons d rest ih =>
    intro st hds
    rw [List.foldl_cons, ih _ (fun d' hd' => hds d' (List.mem_cons_of_mem _ hd')),
      dget_inv_stepDroplet_kid_ne _ _ _ _ (hds d (List.mem_cons_self _ _)) (hres _)]

/-- C3 counterexample: one droplet, with the unique id 7, addressable at
"1.2.3.4", in region 7 whose slug is the empty string.  The region group key
falls back to the integer 7, so `add_droplet` first assigns
`inventory[7] = ["1.2.3.4"]` and then pushes the same address onto the same
key as the region group: the id group ends with two elements, not one. -/
theorem claim_C3_counterexample :
    dget (buildInventory [⟨7, some ""⟩] [⟨7, "web1", 7, some "1.2.3.4"⟩]).inventory
        (GKey.kid 7) = some ["1.2.3.4", "1.2.3.4"] ∧
    dget (buildInventory [⟨7, some ""⟩] [⟨7, "web1", 7, some "1.2.3.4"⟩]).inventory
        (GKey.kid 7) ≠ some ["1.2.3.4"] := by
  constructor
  · rfl
  · decide

/-- C3 amended: a droplet with id D and address A produces
`inventory[D] = [A]` when D is unique among the input droplet ids, provided
every region record carries a non-empty slug (so that no region group key is
an integer that could collide with the droplet-id group D). -/
theorem claim_C3_amended_singleton_id_group (rs : List RegionRec) (pre post : List Droplet)
    (d0 : Droplet) (a : String)
    (hgood : ∀ r ∈ rs, r.slug ≠ none ∧ r.slug ≠ some "")
    (hip : d0.ip_address = some a) (ha : a ≠ "")
    (_hpre : ∀ d ∈ pre, d.id ≠ d0.id) (hpost : ∀ d ∈ post, d.id ≠ d0.id) :
    dget (buildInventory rs (pre ++ d0 :: post)).inventory (GKey.kid d0.id) = some [a] := by
  have hres := resolveRegion_good rs hgood
  unfold buildInventory do_api_calls_update_cache
  rw [List.foldl_append, List.foldl_cons,
    dget_inv_foldl_kid_ne _ _ hres _ _ hpost,
    dget_inv_stepDroplet_kid_self _ _ _ _ hip ha (hres _)]

/-- Witness for the amended C3 on the spec's own scenario droplet. -/
theorem claim_C3_amended_singleton_id_group_witness :
    dget (buildInventory [⟨5, some "nyc1"⟩]
        ([] ++ Droplet.mk 1 "web1" 5 (some "1.2.3.4") :: [])).inventory
      (GKey.kid 1) = some ["1.2.3.4"] :=
  claim_C3_amended_singleton_id_group [⟨5, some "nyc1"⟩] [] []
    ⟨1, "web1", 5, some "1.2.3.4"⟩ "1.2.3.4"
    (by decide) rfl (by decide) (by simp) (by simp)

/-- C2: `is_cache_valid` returns true iff the cache artifact exists, its
mtime plus the configured max age strictly exceeds the current time, and the
index artifact also exists; in particular it is false whenever the cache
artifact is absent, regardless of max age. -/
theorem claim_C2_cache_validity (fs : FSState) :
    (is_cache_valid fs = true ↔
      fs.cacheFileExists = true ∧ fs.cacheMtime + fs.maxAge > fs.nowT ∧
        fs.indexFileExists = true) ∧
    (fs.cacheFileExists = false → is_cache_valid fs = false) := by
  constructor
  · unfold is_cache_valid
    split
    · split
      · split
        · simp_all
        · simp_all
      · constructor
        · intro h; exact absurd h (by simp)
        · rintro ⟨-, h, -⟩; omega
    · simp_all
  · intro h
    unfold is_cache_valid
    simp [h]

theorem keyLe_total (k k' : GKey) : keyLe k k' = true ∨ keyLe k' k = true := by
  cases k with
  | kid i =>
    cases k' with
    | kid j =>
      simp only [keyLe, decide_eq_true_eq]
      exact Int.le_total i j
    | kstr s => simp [keyLe]
  | kstr s =>
    cases k' with
    | kid j => simp [keyLe]
    | kstr t =>
      simp only [keyLe, decide_eq_true_eq]
      exact le_total s t

theorem keyLe_trans {a b c : GKey} (h1 : keyLe a b = true) (h2 : keyLe b c = true) :
    keyLe a c = true := by
  cases a with
  | kid i =>
    cases b with
    | kid j =>
      cases c with
      | kid l =>
        simp only [keyLe, decide_eq_true_eq] at h1 h2 ⊢
        omega
      | kstr t => simp [keyLe]
    | kstr s =>
      cases c with
      | kid l => simp [keyLe] at h2
      | kstr t => simp [keyLe]
  | kstr s =>
    cases b with
    | kid j => simp [keyLe] at h1
    | kstr t =>
      cases c with
      | kid l => simp [keyLe] at h2
      | kstr u =>
        simp only [keyLe, decide_eq_true_eq] at h1 h2 ⊢
        exact le_trans h1 h2

theorem keyLe_antisymm {k k' : GKey} (h1 : keyLe k k' = true) (h2 : keyLe k' k = true) :
    k = k' := by
  cases k with
  | kid i =>
    cases k' with
    | kid j =>
      simp only [keyLe, decide_eq_true_eq] at h1 h2
      exact congrArg GKey.kid (le_antisymm h1 h2)
    | kstr s => simp [keyLe] at h2
  | kstr s =>
    cases k' with
    | kid j => simp [keyLe] at h1
    | kstr t =>
      simp only [keyLe, decide_eq_true_eq] at h1 h2
      exact congrArg GKey.kstr (le_antisymm h1 h2)

instance : IsTotal (GKey × List Atom) pairLe :=
  ⟨fun a b => keyLe_total a.1 b.1⟩

instance : IsTrans (GKey × List Atom) pairLe :=
  ⟨fun _ _ _ hab hbc => keyLe_trans hab hbc⟩

theorem eq_of_perm_sorted_nodupKeys :
    ∀ (l₁ l₂ : PyDict), l₁.Perm l₂ → l₁.Sorted pairLe → l₂.Sorted pairLe →
      nodupKeys l₁ → l₁ = l₂ := by
  intro l₁
  induction l₁ with
  | nil =>
    intro l₂ hp _ _ _
    exact hp.nil_eq
  | cons p l₁ ih =>
    intro l₂ hp hs₁ hs₂ hnd
    cases l₂ with
    | nil => cases hp.symm.nil_eq
    | cons q l₂ =>
      have hpq : p = q := by
        rcases List.mem_cons.1 (hp.mem_iff.2 (List.mem_cons_self q l₂)) with he | hq'
        · exact he.symm
        · rcases List.mem_cons.1 (hp.mem_iff.1 (List.mem_cons_self p l₁)) with he | hp'
          · exact he
          · exfalso
            have hk : p.1 = q.1 :=
              keyLe_antisymm (List.rel_of_sorted_cons hs₁ q hq')
                (List.rel_of_sorted_cons hs₂ p hp')
            simp only [nodupKeys, List.map_cons, List.nodup_cons] at hnd
            exact hnd.1 (hk ▸ List.mem_map_of_mem Prod.fst hq')
      subst hpq
      have hnd' : nodupKeys l₁ := by
        simp only [nodupKeys, List.map_cons, List.nodup_cons] at hnd
        exact hnd.2
      rw [ih l₂ hp.cons_inv hs₁.of_cons hs₂.of_cons hnd']

theorem dget_eq_none_iff {α β : Type} [DecidableEq α] {l : List (α × β)} {k : α} :
    dget l k = none ↔ k ∉ l.map Prod.fst := by
  induction l with
  | nil => simp [dget]
  | cons p rest ih =>
    obtain ⟨k₀, v₀⟩ := p
    by_cases h : k = k₀
    · subst h
      simp [dget]
    · simp [dget, h, ih]

theorem dget_eq_some_iff {α β : Type} [DecidableEq α] {l : List (α × β)}
    (hnd : (l.map Prod.fst).Nodup) {k : α} {v : β} :
    dget l k = some v ↔ (k, v) ∈ l := by
  constructor
  · exact dget_some_mem
  · intro hm
    induction l with
    | nil => cases hm
    | cons p rest ih =>
      obtain ⟨k₀, v₀⟩ := p
      rcases List.mem_cons.1 hm with he | hm'
      · cases he
        simp [dget]
      · by_cases h : k = k₀
        · subst h
          simp only [List.map_cons, List.nodup_cons] at hnd
          exact absurd (List.mem_map_of_mem Prod.fst hm') hnd.1
        · simp only [List.map_cons, List.nodup_cons] at hnd
          simp only [dget, if_neg h]
          exact ih hnd.2 hm'

theorem dget_eq_of_perm {α β : Type} [DecidableEq α] {l₁ l₂ : List (α × β)}
    (hp : l₁.Perm l₂) (hnd : (l₁.map Prod.fst).Nodup) (k : α) :
    dget l₁ k = dget l₂ k := by
  have hnd₂ : (l₂.map Prod.fst).Nodup := ((hp.map Prod.fst).nodup_iff).1 hnd
  cases h : dget l₁ k with
  | none =>
    have := dget_eq_none_iff.1 h
    symm
    rw [dget_eq_none_iff]
    exact fun hm => this ((hp.map Prod.fst).mem_iff.2 hm)
  | some v =>
    symm
    rw [dget_eq_some_iff hnd₂]
    exact hp.mem_iff.1 (dget_some_mem h)

/-- C9: serializing a dict to the cache text format is deterministic: two
dicts with the same entries (in any association order, keys duplicate-free)
print to byte-identical text, because items are emitted in sorted key
order. -/
theorem claim_C9_serialization_deterministic (d₁ d₂ : PyDict)
    (hnd : nodupKeys d₁) (hp : d₁.Perm d₂) :
    json_format_dict d₁ = json_format_dict d₂ := by
  have hs : List.insertionSort pairLe d₁ = List.insertionSort pairLe d₂ := by
    apply eq_of_perm_sorted_nodupKeys
    · exact (List.perm_insertionSort pairLe d₁).trans
        (hp.trans (List.perm_insertionSort pairLe d₂).symm)
    · exact List.sorted_insertionSort pairLe d₁
    · exact List.sorted_insertionSort pairLe d₂
    · exact ((List.perm_insertionSort pairLe d₁).map Prod.fst).nodup_iff.2 hnd
  simp [json_format_dict, dumpObj, sortPairs, hs]

/-- Witness for C9: two association orders of the same two-entry dict (one
integer droplet-id key, one string key) serialize to the same text. -/
theorem claim_C9_serialization_deterministic_witness :
    json_format_dict [(GKey.kstr "nyc1", [Atom.str "1.2.3.4"]), (GKey.kid 1, [Atom.str "1.2.3.4"])] =
      json_format_dict [(GKey.kid 1, [Atom.str "1.2.3.4"]), (GKey.kstr "nyc1", [Atom.str "1.2.3.4"])] :=
  claim_C9_serialization_deterministic _ _ (by unfold nodupKeys; decide) (by decide)

/-- C5 counterexample: an inventory with the integer droplet-id key 1 does
not survive the serialize/deserialize round trip: `json.dumps` writes the
key as the string "1" and `json.loads` returns a dict keyed by that string,
which is a different Python value (lookup under the integer key now misses). -/
theorem claim_C5_roundtrip_counterexample :
    json_loads (dumpObj (invToPy [(GKey.kid 1, ["1.2.3.4"])])) ≠
      invToPy [(GKey.kid 1, ["1.2.3.4"])] ∧
    dget (json_loads (dumpObj (invToPy [(GKey.kid 1, ["1.2.3.4"])]))) (GKey.kid 1) = none ∧
    dget (invToPy [(GKey.kid 1, ["1.2.3.4"])]) (GKey.kid 1) = some [Atom.str "1.2.3.4"] := by
  refine ⟨by decide, by decide, by decide⟩

/-- C5 amended: the round trip preserves dict content (Python `==` on dicts)
exactly for string-keyed data: every string-keyed dict — in particular every
serialized InventoryIndex, whose keys are addresses — deserializes to an
equal dict, while Inventory values with integer droplet-id keys come back
with those keys stringified (see the counterexample). -/
theorem claim_C5_amended_roundtrip :
    (∀ (d : PyDict), (∀ p ∈ d, ∃ s, p.1 = GKey.kstr s) → nodupKeys d →
        ∀ k, dget (json_loads (dumpObj d)) k = dget d k) ∧
    (∀ (idx : List (String × (Int × Int))), nodupKeys (indexToPy idx) →
        ∀ k, dget (json_loads (dumpObj (indexToPy idx))) k = dget (indexToPy idx) k) := by
  have main : ∀ (d : PyDict), (∀ p ∈ d, ∃ s, p.1 = GKey.kstr s) → nodupKeys d →
      ∀ k, dget (json_loads (dumpObj d)) k = dget d k := by
    intro d hstr hnd k
    have hmap : json_loads (dumpObj d) = sortPairs d := by
      unfold json_loads dumpObj
      rw [List.map_map]
      have : ∀ p ∈ sortPairs d,
          ((fun p => (GKey.kstr p.1, p.2)) ∘ fun p => (keyStr p.1, p.2)) p = id p := by
        intro p hps
        obtain ⟨s, hs⟩ := hstr p ((List.mem_insertionSort pairLe).1 hps)
        obtain ⟨k₀, v₀⟩ := p
        simp only at hs
        subst hs
        simp [keyStr]
      rw [List.map_congr_left this, List.map_id]
    rw [hmap]
    exact dget_eq_of_perm (List.perm_insertionSort pairLe d)
      (((List.perm_insertionSort pairLe d).map Prod.fst).nodup_iff.2 hnd) k
  constructor
  · exact main
  · intro idx hnd k
    apply main
    · intro p hm
      simp only [indexToPy, List.mem_map] at hm
      obtain ⟨q, -, hq⟩ := hm
      exact ⟨q.1, by rw [← hq]⟩
    · exact hnd

/-- Witness for the amended C5 at a concrete index. -/
theorem claim_C5_amended_roundtrip_witness :
    dget (json_loads (dumpObj (indexToPy [("1.2.3.4", (5, 1))])))
        (GKey.kstr "1.2.3.4") =
      dget (indexToPy [("1.2.3.4", (5, 1))]) (GKey.kstr "1.2.3.4") :=
  claim_C5_amended_roundtrip.2 [("1.2.3.4", (5, 1))] (by unfold nodupKeys; decide)
    (GKey.kstr "1.2.3.4")

/-- Witness for C2 at a concrete filesystem state. -/
theorem claim_C2_cache_validity_witness :
    is_cache_valid ⟨true, 100, 50, 120, true⟩ = true ∧
      is_cache_valid ⟨false, 100, 50, 120, true⟩ = false := by
  constructor
  · exact (claim_C2_cache_validity ⟨true, 100, 50, 120, true⟩).1.2
      ⟨rfl, by norm_num, rfl⟩
  · exact (claim_C2_cache_validity ⟨false, 100, 50, 120, true⟩).2 rfl

theorem get_host_info_not_found (st : DOState) (ci : List (String × (Int × Int)))
    (env : ApiEnv) (host : String)
    (h1 : dget (loadedState st ci).index host = none)
    (h2 : dget (do_api_calls_update_cache (loadedState st ci) env.regionsResp
        env.dropletsResp).index host = none) :
    get_host_info st ci env host = Except.ok (HostRet.text (json_format_dict [])) := by
  unfold get_host_info
  simp only [h1, Option.isSome_none, Bool.false_eq_true, if_false, h2]

theorem get_host_info_found (st : DOState) (ci : List (String × (Int × Int)))
    (env : ApiEnv) (host : String) (p : Int × Int) (d : PyDict)
    (h1 : dget (loadedState st ci).index host = some p)
    (h2 : env.dropletById p.2 = Except.ok d) :
    get_host_info st ci env host = Except.ok (HostRet.record d) := by
  unfold get_host_info
  simp only [h1, Option.isSome_some, if_true, h2, Except.map]

/-- C6: when the host address is absent from the index and a full refresh
cycle also fails to surface it, `get_host_info` returns the serialized empty
dict through the ordinary `Except.ok` path — "host not found" is a normal
outcome, not an exception — regardless of how the by-id endpoint would
behave. -/
theorem claim_C6_host_not_found_is_empty_result (st : DOState)
    (ci : List (String × (Int × Int))) (env : ApiEnv) (host : String)
    (h1 : dget (loadedState st ci).index host = none)
    (h2 : dget (do_api_calls_update_cache (loadedState st ci) env.regionsResp
        env.dropletsResp).index host = none) :
    get_host_info st ci env host = Except.ok (HostRet.text (json_format_dict [])) :=
  get_host_info_not_found st ci env host h1 h2

/-- Witness for C6: a host unknown to an empty index and an empty listing,
with a by-id endpoint that would fail, still yields the empty result. -/
theorem claim_C6_host_not_found_is_empty_result_witness :
    get_host_info ⟨[], []⟩ [] ⟨[], [], fun _ => Except.error "fail"⟩ "1.2.3.4" =
      Except.ok (HostRet.text (json_format_dict [])) :=
  claim_C6_host_not_found_is_empty_result ⟨[], []⟩ []
    ⟨[], [], fun _ => Except.error "fail"⟩ "1.2.3.4" (by decide) (by decide)

/-- C10: the two branches of `get_host_info` return different shapes — the
not-found branch a string holding the serialized empty dict, the found
branch the record dict itself — and the single-host output path serializes
the not-found string a second time, printing a quoted JSON string literal
rather than the empty dict text. -/
theorem claim_C10_branches_not_same_shape :
    (∀ (st : DOState) (ci : List (String × (Int × Int))) (env : ApiEnv) (host : String),
        dget (loadedState st ci).index host = none →
        dget (do_api_calls_update_cache (loadedState st ci) env.regionsResp
            env.dropletsResp).index host = none →
        get_host_info st ci env host = Except.ok (HostRet.text (json_format_dict []))) ∧
    (∀ (st : DOState) (ci : List (String × (Int × Int))) (env : ApiEnv) (host : String)
        (p : Int × Int) (d : PyDict),
        dget (loadedState st ci).index host = some p →
        env.dropletById p.2 = Except.ok d →
        get_host_info st ci env host = Except.ok (HostRet.record d)) ∧
    hostOutput (HostRet.text (json_format_dict [])) = "\"\x7b\x7d\"" ∧
    hostOutput (HostRet.text (json_format_dict [])) ≠ json_format_dict [] ∧
    (∀ s d, HostRet.text s ≠ HostRet.record d) := by
  refine ⟨get_host_info_not_found, get_host_info_found, ?_, ?_, ?_⟩
  · rfl
  · decide
  · intro s d h
    cases h

/-- Witness for C10: the found branch on a concrete indexed host returns the
fetched record; the not-found branch on a fresh state returns the serialized
empty dict. -/
theorem claim_C10_branches_not_same_shape_witness :
    get_host_info ⟨[], [("1.2.3.4", (5, 1))]⟩ []
        ⟨[], [], fun i => Except.ok [(GKey.kstr "id", [Atom.int i])]⟩ "1.2.3.4" =
      Except.ok (HostRet.record [(GKey.kstr "id", [Atom.int 1])]) ∧
    get_host_info ⟨[], []⟩ [] ⟨[], [], fun _ => Except.error "fail"⟩ "8.8.8.8" =
      Except.ok (HostRet.text (json_format_dict [])) :=
  ⟨claim_C10_branches_not_same_shape.2.1 _ _ _ _ (5, 1) _ (by decide) rfl,
   claim_C10_branches_not_same_shape.1 _ _ _ _ (by decide) (by decide)⟩

end DOInv
